import Mathlib

/-!
Verification of the schema/graph core of the Instant CLI schema library
(`src/client/packages/cli/index.js`): the attribute/link/entity data model,
the link indexer and graph builder (`enrichEntitiesWithLinks`, `graph`),
the copy-on-write attribute modifiers (`DataAttrDef`), and the query
result-shape computation (`InstaQLQueryResult` and friends).

JavaScript string-keyed objects are embedded as `String → Option α`
(content view; property writes overwrite), and ordered collections that the
code iterates (`Object.values(links)`, `Object.entries(entities)`) as
association lists, which preserves the iteration order the loops see.
-/

namespace Instant

/-- A JavaScript object used as a string-keyed map, viewed by content. -/
abbrev StrMap (α : Type) := String → Option α

/-- The empty object `{}`. -/
def StrMap.empty {α : Type} : StrMap α := fun _ => none

/-- Property write `m[k] = v` (overwrites an existing binding). -/
def StrMap.set {α : Type} (m : StrMap α) (k : String) (v : α) : StrMap α :=
  fun k2 => if k2 = k then some v else m k2

/-- Object spread `{...a, ...b}`: bindings of `b` win over those of `a`. -/
def StrMap.merge {α : Type} (a b : StrMap α) : StrMap α :=
  fun k => (b k).orElse (fun _ => a k)

/-- The `CardinalityKind` type: `"one" | "many"`. -/
inductive Cardinality where
  | one
  | many
  deriving DecidableEq

/-- The `ValueTypes` type: `"string" | "number" | "boolean" | "json"`. -/
inductive ValueType where
  | string
  | number
  | boolean
  | json
  deriving DecidableEq

/-- The `config` object of a `DataAttrDef`. -/
structure AttrConfig where
  indexed : Bool
  unique : Bool
  deriving DecidableEq

/-- `class DataAttrDef`: one scalar attribute definition. -/
structure DataAttrDef where
  valueType : ValueType
  required : Bool
  config : AttrConfig
  deriving DecidableEq

/-- `i.string()`. -/
def string : DataAttrDef := ⟨ValueType.string, true, ⟨false, false⟩⟩

/-- `i.number()`. -/
def number : DataAttrDef := ⟨ValueType.number, true, ⟨false, false⟩⟩

/-- `i.boolean()`. -/
def boolean : DataAttrDef := ⟨ValueType.boolean, true, ⟨false, false⟩⟩

/-- `i.json()`. -/
def json : DataAttrDef := ⟨ValueType.json, true, ⟨false, false⟩⟩

/-- `optional()`: `new DataAttrDef(this.valueType, false)` — the `config`
argument is omitted, so it falls back to the constructor default
`{indexed: false, unique: false}`. -/
def DataAttrDef.optional (a : DataAttrDef) : DataAttrDef :=
  ⟨a.valueType, false, ⟨false, false⟩⟩

/-- `unique()`: `new DataAttrDef(this.valueType, this.required, {...this.config, unique: true})`. -/
def DataAttrDef.unique (a : DataAttrDef) : DataAttrDef :=
  ⟨a.valueType, a.required, ⟨a.config.indexed, true⟩⟩

/-- `indexed()`: `new DataAttrDef(this.valueType, this.required, {...this.config, indexed: true})`. -/
def DataAttrDef.indexed (a : DataAttrDef) : DataAttrDef :=
  ⟨a.valueType, a.required, ⟨true, a.config.unique⟩⟩

/-- The value stored in an enriched entity's `links` map:
`{entityName, cardinality}`. -/
structure LinkAttr where
  entityName : String
  cardinality : Cardinality
  deriving DecidableEq

/-- `EntityDef`: named attributes plus (after enrichment) a links map. -/
structure EntityDef where
  attrs : List (String × DataAttrDef)
  links : StrMap LinkAttr

instance : Inhabited EntityDef := ⟨⟨[], StrMap.empty⟩⟩

/-- `i.entity(attrs)`: `{ attrs, links: {} }`. -/
def entity (attrs : List (String × DataAttrDef)) : EntityDef :=
  ⟨attrs, StrMap.empty⟩

/-- One direction of a link definition: `{on, label, has}`. -/
structure LinkDirection where
  onEntity : String
  label : String
  has : Cardinality
  deriving DecidableEq

/-- `LinkDef`: a forward and a reverse direction. -/
structure LinkDef where
  forward : LinkDirection
  reverse : LinkDirection
  deriving DecidableEq

/-- `LinksDef`: the named link definitions, in object-insertion order
(the order `Object.values` iterates). -/
abbrev LinksDef := List (String × LinkDef)

/-- `LinksIndex`: `{ fwd: {}, rev: {} }`. -/
structure LinksIndex where
  fwd : StrMap (StrMap LinkAttr)
  rev : StrMap (StrMap LinkAttr)

/-- One iteration of the indexer loop in `enrichEntitiesWithLinks`:
`fwd[f.onEntity] ||= {}; rev[r.onEntity] ||= {}; fwd[f.onEntity][f.label] = {entityName: r.onEntity,
cardinality: f.has}; rev[r.onEntity][r.label] = {entityName: f.onEntity, cardinality: r.has}`. -/
def indexStep (idx : LinksIndex) (l : LinkDef) : LinksIndex :=
  { fwd := idx.fwd.set l.forward.onEntity
      (((idx.fwd l.forward.onEntity).getD StrMap.empty).set l.forward.label
        ⟨l.reverse.onEntity, l.forward.has⟩),
    rev := idx.rev.set l.reverse.onEntity
      (((idx.rev l.reverse.onEntity).getD StrMap.empty).set l.reverse.label
        ⟨l.forward.onEntity, l.reverse.has⟩) }

/-- The indexer loop of `enrichEntitiesWithLinks`:
`for (const linkDef of Object.values(links)) ...`. -/
def buildIndex (links : LinksDef) : LinksIndex :=
  links.foldl (fun idx p => indexStep idx p.2) ⟨StrMap.empty, StrMap.empty⟩

/-- `enrichEntitiesWithLinks(entities, links)`: build the index, then map
each entity to `{...def, links: {...fwd[name], ...rev[name]}}`. -/
def enrichEntitiesWithLinks (entities : List (String × EntityDef))
    (links : LinksDef) : List (String × EntityDef) :=
  let linksIndex := buildIndex links
  entities.map fun p =>
    (p.1, { p.2 with
            links := StrMap.merge ((linksIndex.fwd p.1).getD StrMap.empty)
                                  ((linksIndex.rev p.1).getD StrMap.empty) })

/-- `class InstantGraph`. -/
structure InstantGraph where
  appId : String
  entities : List (String × EntityDef)
  links : LinksDef

/-- `i.graph(appId, entities, links)`. -/
def graph (appId : String) (entities : List (String × EntityDef))
    (links : LinksDef) : InstantGraph :=
  ⟨appId, enrichEntitiesWithLinks entities links, links⟩

/-- Property read `ents[name]` on an entities object represented as an
association list with unique keys (first binding wins). -/
def lookupEnt (ents : List (String × EntityDef)) (name : String) :
    Option EntityDef :=
  (ents.find? fun p => p.1 == name).map Prod.snd

/-- A query document: a tree of nested objects keyed by entity/link names
(the `Query` type parameter of the `InstaQL...Result` types). -/
inductive Query where
  | node : List (String × Query) → Query

/-- One field of a computed result shape, mirroring the type each property
gets in the `InstaQL...Result` object types: a scalar attribute (with its
value type and whether `undefined` is excluded), a single nested shape, a
collection of a nested shape, or `never`. -/
inductive Field where
  | attr : ValueType → Bool → Field
  | single : List (String × Field) → Field
  | many : List (String × Field) → Field
  | never : Field

mutual

/-- `InstaQLEntityResult<Entities, EntityName, Query>` =
`InstaQLAttrsResult & InstaQLLinksResult`: every attribute of the entity
contributes a scalar field (`IsRequired extends true ? ValueType :
ValueType | undefined`), and every key of the query contributes a link
field. -/
def entityResult (ents : List (String × EntityDef)) (d : EntityDef) :
    Query → List (String × Field)
  | .node cs =>
    (d.attrs.map fun a => (a.1, Field.attr a.2.valueType a.2.required)) ++
      linkFields ents d cs

/-- `InstaQLLinksResult<Entities, EntityName, Query>`: each query key that
is a link label resolves through the entity's `links` map — cardinality
`"one"` gives a single nested shape, `"many"` a collection of it — and any
other key (or a link whose target entity is absent) gives `never`. -/
def linkFields (ents : List (String × EntityDef)) (d : EntityDef) :
    List (String × Query) → List (String × Field)
  | [] => []
  | (k, sub) :: rest =>
    (k,
      match d.links k with
      | some la =>
        match lookupEnt ents la.entityName with
        | some td =>
          match la.cardinality with
          | .one => Field.single (entityResult ents td sub)
          | .many => Field.many (entityResult ents td sub)
        | none => Field.never
      | none => Field.never) :: linkFields ents d rest

end

/-- `Query[QueryPropName] extends { $first: any }`: the sub-query carries
the reserved single-result control key. -/
def hasFirst : Query → Bool
  | .node cs => cs.any fun p => p.1 == "$first"

/-- `Omit<..., "$first">` on a computed shape: drop the control key from
the produced fields. -/
def omitFields (fs : List (String × Field)) : List (String × Field) :=
  fs.filter fun p => p.1 != "$first"

/-- `InstaQLQueryResult<Entities, Query>`: each top-level query key naming
an entity resolves to a collection of the entity result, except that a
sub-query carrying `$first` degrades it to a single shape with `$first`
omitted; a top-level key that is not an entity gives `never`. -/
def queryResult (ents : List (String × EntityDef)) : Query →
    List (String × Field)
  | .node cs =>
    cs.map fun p =>
      (p.1,
        match lookupEnt ents p.1 with
        | some d =>
          if hasFirst p.2 then
            Field.single (omitFields (entityResult ents d p.2))
          else
            Field.many (entityResult ents d p.2)
        | none => Field.never)

/-- Modelled from the spec: the error taxonomy of §7 for the runtime Query
Shape Resolver, which the repository implements only at the type level
(`InstaQLQueryResult` and friends); each error names the offending
entity/label and the nesting path at which the mismatch occurred. -/
inductive QueryError where
  | unknownLink : String → String → List String → QueryError
  | unknownEntity : String → List String → QueryError
  deriving DecidableEq

mutual

/-- Modelled from the spec: the recursive resolution rule of §4.3 for one
entity node — the runtime Query Shape Resolver is absent from the source
(the source derives shapes purely via static type inference), so this
follows the spec's words: every attribute of the entity is present in the
result, and every nested query key resolves through the entity's `links`
map, signalling `UnknownLink` (with the entity, the label, and the nesting
path) when the key is not a link label. -/
def resolveEntity (ents : List (String × EntityDef)) (e : String)
    (d : EntityDef) (path : List String) :
    Query → Except QueryError (List (String × Field))
  | .node cs =>
    match resolveLinks ents e d path cs with
    | .error err => .error err
    | .ok lf =>
      .ok ((d.attrs.map fun a => (a.1, Field.attr a.2.valueType a.2.required))
        ++ lf)

/-- Modelled from the spec: resolution of the nested query keys of one
entity node (see `resolveEntity`); keys are processed in order and the
first failure is signalled. -/
def resolveLinks (ents : List (String × EntityDef)) (e : String)
    (d : EntityDef) (path : List String) :
    List (String × Query) → Except QueryError (List (String × Field))
  | [] => .ok []
  | (k, sub) :: rest =>
    match d.links k with
    | none => .error (.unknownLink e k (path ++ [k]))
    | some la =>
      match lookupEnt ents la.entityName with
      | none => .error (.unknownEntity la.entityName (path ++ [k]))
      | some td =>
        match resolveEntity ents la.entityName td (path ++ [k]) sub with
        | .error err => .error err
        | .ok fs =>
          match resolveLinks ents e d path rest with
          | .error err => .error err
          | .ok rfs =>
            .ok ((k,
              match la.cardinality with
              | .one => Field.single fs
              | .many => Field.many fs) :: rfs)

end

/-- Modelled from the spec: strip the reserved `$first` control key from a
top-level sub-query before resolving it (§4.3: the control key is stripped
from the produced shape descriptor). -/
def stripFirst : Query → Query
  | .node cs => .node (cs.filter fun p => p.1 != "$first")

/-- Modelled from the spec: resolution of the top-level entity keys of a
query document (see `resolveQuery`). -/
def resolveTop (ents : List (String × EntityDef)) :
    List (String × Query) → Except QueryError (List (String × Field))
  | [] => .ok []
  | (ename, sub) :: rest =>
    match lookupEnt ents ename with
    | none => .error (.unknownEntity ename [ename])
    | some d =>
      match resolveEntity ents ename d [ename] (stripFirst sub) with
      | .error err => .error err
      | .ok fs =>
        match resolveTop ents rest with
        | .error err => .error err
        | .ok r =>
          .ok ((ename,
            if hasFirst sub then Field.single fs else Field.many fs) :: r)

/-- Modelled from the spec: the runtime Query Shape Resolver of §4.3
(absent from the source, which is type-level only) — resolve each
top-level entity key of the query document against the enriched entities,
producing a shape descriptor or the first error encountered. -/
def resolveQuery (ents : List (String × EntityDef)) :
    Query → Except QueryError (List (String × Field))
  | .node cs => resolveTop ents cs

/-! A small heap model for the `DataAttrDef` modifier methods: JavaScript
objects live on a heap and are handled by reference, so "returns a new
AttributeDef and leaves the receiver unchanged" is a statement about
references. A store is a list of allocated `DataAttrDef` objects and a
reference is an index into it; each modifier method reads its receiver and
allocates a fresh object, exactly as `new DataAttrDef(...)` does. -/

/-- The heap of allocated `DataAttrDef` objects. -/
abbrev Store := List DataAttrDef

/-- Allocate a fresh object, returning the new store and the new reference. -/
def Store.alloc (s : Store) (v : DataAttrDef) : Store × Nat :=
  (s ++ [v], s.length)

/-- The method call `a.optional()` on the heap: read the receiver, allocate
the result of `optional`. An invalid reference leaves the store unchanged. -/
def optionalCall (s : Store) (r : Nat) : Store × Nat :=
  match s.get? r with
  | some a => s.alloc a.optional
  | none => (s, r)

/-- The method call `a.unique()` on the heap. -/
def uniqueCall (s : Store) (r : Nat) : Store × Nat :=
  match s.get? r with
  | some a => s.alloc a.unique
  | none => (s, r)

/-- The method call `a.indexed()` on the heap. -/
def indexedCall (s : Store) (r : Nat) : Store × Nat :=
  match s.get? r with
  | some a => s.alloc a.indexed
  | none => (s, r)

/-! Derived views of the link index used to state the claims. -/

/-- The entry `fwd[e][lab]` of a links index (reading a missing `fwd[e]`
sub-object as `{}`, as the spread in `enrichEntitiesWithLinks` does). -/
def fwdAt (idx : LinksIndex) (e lab : String) : Option LinkAttr :=
  ((idx.fwd e).getD StrMap.empty) lab

/-- The entry `rev[e][lab]` of a links index. -/
def revAt (idx : LinksIndex) (e lab : String) : Option LinkAttr :=
  ((idx.rev e).getD StrMap.empty) lab

/-- The value the indexer writes at a link's forward key. -/
def fwdVal (l : LinkDef) : LinkAttr := ⟨l.reverse.onEntity, l.forward.has⟩

/-- The value the indexer writes at a link's reverse key. -/
def revVal (l : LinkDef) : LinkAttr := ⟨l.forward.onEntity, l.reverse.has⟩

/-- The link definitions of a links mapping that write the forward key
`(e, lab)`, in iteration order. -/
def fwdHits (ls : LinksDef) (e lab : String) : List LinkDef :=
  (ls.map Prod.snd).filter fun l =>
    l.forward.onEntity == e && l.forward.label == lab

/-- The link definitions of a links mapping that write the reverse key
`(e, lab)`, in iteration order. -/
def revHits (ls : LinksDef) (e lab : String) : List LinkDef :=
  (ls.map Prod.snd).filter fun l =>
    l.reverse.onEntity == e && l.reverse.label == lab

/-- The forward `(entity, label)` keys written by a links mapping. -/
def fwdKeys (ls : LinksDef) : List (String × String) :=
  (ls.map Prod.snd).map fun l => (l.forward.onEntity, l.forward.label)

/-- The reverse `(entity, label)` keys written by a links mapping. -/
def revKeys (ls : LinksDef) : List (String × String) :=
  (ls.map Prod.snd).map fun l => (l.reverse.onEntity, l.reverse.label)

/-! Concrete inputs used by the witnesses and counterexamples. -/

/-- The spec's self-link example: a single `posts` entity. -/
def selfEs : List (String × EntityDef) := [("posts", entity [("title", string)])]

/-- The spec's self-link example: `replies`/`parent` on `posts`. -/
def selfLs : LinksDef :=
  [("postsPosts", ⟨⟨"posts", "replies", .many⟩, ⟨"posts", "parent", .one⟩⟩)]

/-- A single self-link whose forward and reverse directions write the same
`(entity, label)` key with different cardinalities. -/
def clashEs : List (String × EntityDef) := [("A", entity [])]

/-- See `clashEs`. -/
def clashLs : LinksDef :=
  [("l", ⟨⟨"A", "x", .many⟩, ⟨"A", "x", .one⟩⟩)]

/-- Two link definitions that both write forward label `tags` on entity
`posts`, with different targets. -/
def dupLs : LinksDef :=
  [("link1", ⟨⟨"posts", "tags", .many⟩, ⟨"tagsA", "p1", .many⟩⟩),
   ("link2", ⟨⟨"posts", "tags", .one⟩, ⟨"tagsB", "p2", .many⟩⟩)]

/-- A two-link mapping with no colliding keys, for the order-independence
witness. -/
def permLs : LinksDef :=
  [("authorPosts", ⟨⟨"authors", "posts", .many⟩, ⟨"posts", "author", .one⟩⟩),
   ("postsTags", ⟨⟨"posts", "tags", .many⟩, ⟨"tags", "posts", .many⟩⟩)]

/-- `permLs` with its two entries transposed. -/
def permLs2 : LinksDef :=
  [("postsTags", ⟨⟨"posts", "tags", .many⟩, ⟨"tags", "posts", .many⟩⟩),
   ("authorPosts", ⟨⟨"authors", "posts", .many⟩, ⟨"posts", "author", .one⟩⟩)]

/-- An entity mentioned by no link definition. -/
def lonerEs : List (String × EntityDef) := [("loner", entity [])]

/-- Links mentioning only entities other than `loner`. -/
def lonerLs : LinksDef :=
  [("authorPosts", ⟨⟨"authors", "posts", .many⟩, ⟨"posts", "author", .one⟩⟩)]

/-- An entity set not containing `comments`, which `orphanLs` references. -/
def orphanEs : List (String × EntityDef) := [("posts", entity [("title", string)])]

/-- A link whose reverse direction references the absent entity `comments`. -/
def orphanLs : LinksDef :=
  [("postsComments", ⟨⟨"posts", "comments", .many⟩, ⟨"comments", "post", .one⟩⟩)]

/-- The enriched `authors` entity of the spec's shape-resolution example. -/
def authorsDef : EntityDef :=
  ⟨[("name", string)], StrMap.empty.set "posts" ⟨"posts", .many⟩⟩

/-- The enriched `posts` entity of the spec's shape-resolution example. -/
def postsDef : EntityDef :=
  ⟨[("title", string)], StrMap.empty.set "author" ⟨"authors", .one⟩⟩

/-- The enriched entities of the spec's shape-resolution example. -/
def shapeEnts : List (String × EntityDef) :=
  [("authors", authorsDef), ("posts", postsDef)]

/-- The query `{posts: {author: {}}}`. -/
def shapeQuery : Query := .node [("posts", .node [("author", .node [])])]

/-- The query `{posts: {$first: {}, author: {}}}`. -/
def firstQuery : Query :=
  .node [("posts", .node [("$first", .node []), ("author", .node [])])]

/-- The query `{posts: {nonexistentLink: {}}}`. -/
def unknownQuery : Query :=
  .node [("posts", .node [("nonexistentLink", .node [])])]

/-! Helper lemmas about the indexer. -/

lemma buildIndex_concat (ls : LinksDef) (p : String × LinkDef) :
    buildIndex (ls ++ [p]) = indexStep (buildIndex ls) p.2 := by
  simp [buildIndex, List.foldl_append]

lemma fwdAt_eq (ls : LinksDef) (e lab : String) :
    fwdAt (buildIndex ls) e lab = (fwdHits ls e lab).getLast?.map fwdVal := by
  induction ls using List.reverseRecOn with
  | nil => rfl
  | append_singleton ls p ih =>
    rw [buildIndex_concat]
    by_cases he : p.2.forward.onEntity = e
    · by_cases hl : p.2.forward.label = lab
      · have hsplit : fwdHits (ls ++ [p]) e lab = fwdHits ls e lab ++ [p.2] := by
          simp [fwdHits, List.filter_append, List.filter_cons, he, hl]
        rw [hsplit, List.getLast?_concat]
        simp [fwdAt, indexStep, StrMap.set, he, hl, fwdVal]
      · have hsplit : fwdHits (ls ++ [p]) e lab = fwdHits ls e lab := by
          simp [fwdHits, List.filter_append, List.filter_cons, hl]
        rw [hsplit, ← ih]
        simp [fwdAt, indexStep, StrMap.set, he, Ne.symm hl]
    · have hsplit : fwdHits (ls ++ [p]) e lab = fwdHits ls e lab := by
        simp [fwdHits, List.filter_append, List.filter_cons, he]
      rw [hsplit, ← ih]
      simp [fwdAt, indexStep, StrMap.set, Ne.symm he]

lemma revAt_eq (ls : LinksDef) (e lab : String) :
    revAt (buildIndex ls) e lab = (revHits ls e lab).getLast?.map revVal := by
  induction ls using List.reverseRecOn with
  | nil => rfl
  | append_singleton ls p ih =>
    rw [buildIndex_concat]
    by_cases he : p.2.reverse.onEntity = e
    · by_cases hl : p.2.reverse.label = lab
      · have hsplit : revHits (ls ++ [p]) e lab = revHits ls e lab ++ [p.2] := by
          simp [revHits, List.filter_append, List.filter_cons, he, hl]
        rw [hsplit, List.getLast?_concat]
        simp [revAt, indexStep, StrMap.set, he, hl, revVal]
      · have hsplit : revHits (ls ++ [p]) e lab = revHits ls e lab := by
          simp [revHits, List.filter_append, List.filter_cons, hl]
        rw [hsplit, ← ih]
        simp [revAt, indexStep, StrMap.set, he, Ne.symm hl]
    · have hsplit : revHits (ls ++ [p]) e lab = revHits ls e lab := by
        simp [revHits, List.filter_append, List.filter_cons, he]
      rw [hsplit, ← ih]
      simp [revAt, indexStep, StrMap.set, Ne.symm he]

lemma buildIndex_fwd_none (ls : LinksDef) (e : String) :
    (buildIndex ls).fwd e = none ↔ ∀ p ∈ ls, p.2.forward.onEntity ≠ e := by
  induction ls using List.reverseRecOn with
  | nil => simp [buildIndex, StrMap.empty]
  | append_singleton ls p ih =>
    rw [buildIndex_concat]
    by_cases he : e = p.2.forward.onEntity
    · constructor
      · intro h
        exact absurd h (by simp [indexStep, StrMap.set, if_pos he])
      · intro h
        exact absurd he.symm (h p (by simp))
    · have hstep : (indexStep (buildIndex ls) p.2).fwd e = (buildIndex ls).fwd e := by
        simp [indexStep, StrMap.set, if_neg he]
      rw [hstep, ih]
      constructor
      · intro h q hq
        rcases List.mem_append.mp hq with hq | hq
        · exact h q hq
        · have : q = p := by simpa using hq
          subst this
          exact fun hc => he hc.symm
      · intro h q hq
        exact h q (List.mem_append.mpr (Or.inl hq))

lemma buildIndex_rev_none (ls : LinksDef) (e : String) :
    (buildIndex ls).rev e = none ↔ ∀ p ∈ ls, p.2.reverse.onEntity ≠ e := by
  induction ls using List.reverseRecOn with
  | nil => simp [buildIndex, StrMap.empty]
  | append_singleton ls p ih =>
    rw [buildIndex_concat]
    by_cases he : e = p.2.reverse.onEntity
    · constructor
      · intro h
        exact absurd h (by simp [indexStep, StrMap.set, if_pos he])
      · intro h
        exact absurd he.symm (h p (by simp))
    · have hstep : (indexStep (buildIndex ls) p.2).rev e = (buildIndex ls).rev e := by
        simp [indexStep, StrMap.set, if_neg he]
      rw [hstep, ih]
      constructor
      · intro h q hq
        rcases List.mem_append.mp hq with hq | hq
        · exact h q hq
        · have : q = p := by simpa using hq
          subst this
          exact fun hc => he hc.symm
      · intro h q hq
        exact h q (List.mem_append.mpr (Or.inl hq))

lemma length_filter_le_one {α β : Type _} (f : α → β) (p : α → Bool)
    (xs : List α) (hx : (xs.map f).Nodup)
    (hp : ∀ x y, p x = true → p y = true → f x = f y) :
    (xs.filter p).length ≤ 1 := by
  induction xs with
  | nil => simp
  | cons x xs ih =>
    simp only [List.map_cons, List.nodup_cons] at hx
    by_cases hpx : p x = true
    · have hnil : xs.filter p = [] := by
        rw [List.filter_eq_nil]
        intro y hy hpy
        exact hx.1 (hp y x hpy hpx ▸ List.mem_map_of_mem f hy)
      rw [List.filter_cons, if_pos hpx, hnil]
      simp
    · rw [List.filter_cons, if_neg hpx]
      exact ih hx.2

lemma eq_singleton_of_mem_of_length_le_one {α : Type _} {xs : List α} {a : α}
    (ha : a ∈ xs) (hl : xs.length ≤ 1) : xs = [a] := by
  cases xs with
  | nil => cases ha
  | cons x t =>
    cases t with
    | nil =>
      have : a = x := by simpa using ha
      subst this
      rfl
    | cons y t2 => simp at hl

lemma filter_eq_of_perm {α : Type _} {xs ys : List α} (p : α → Bool)
    (hperm : xs.Perm ys) (hlen : (xs.filter p).length ≤ 1) :
    xs.filter p = ys.filter p := by
  have h := hperm.filter p
  cases hx : xs.filter p with
  | nil =>
    rw [hx] at h
    exact (List.perm_nil.mp h.symm).symm
  | cons a t =>
    cases t with
    | nil =>
      rw [hx] at h
      exact (List.perm_singleton.mp h.symm).symm
    | cons b t2 =>
      rw [hx] at hlen
      simp at hlen

lemma lookupEnt_enrich (es : List (String × EntityDef)) (ls : LinksDef)
    (name : String) :
    lookupEnt (enrichEntitiesWithLinks es ls) name =
      (lookupEnt es name).map fun d =>
        { d with links :=
            StrMap.merge (((buildIndex ls).fwd name).getD StrMap.empty)
                         (((buildIndex ls).rev name).getD StrMap.empty) } := by
  induction es with
  | nil => rfl
  | cons q es ih =>
    by_cases hq : q.1 = name
    · simp [enrichEntitiesWithLinks, lookupEnt, List.find?_cons, hq]
    · have hb : (q.1 == name) = false := by simp [hq]
      simp only [enrichEntitiesWithLinks, lookupEnt, List.map_cons,
        List.find?_cons, hb]
      simpa [enrichEntitiesWithLinks, lookupEnt] using ih

/-! The claims. -/

/-- C6: for every input containing a link definition whose forward or
reverse `on` names an entity absent from the entities mapping, `graph`
still returns a `Graph` (the construction is a total function), and the
entities of the returned `Graph` carry exactly the keys of the input
entities mapping — no entity is created for the unknown name. -/
theorem graph_total_keys_preserved (a : String)
    (es : List (String × EntityDef)) (ls : LinksDef)
    (h : ∃ p ∈ ls, p.2.forward.onEntity ∉ es.map Prod.fst ∨
         p.2.reverse.onEntity ∉ es.map Prod.fst) :
    (graph a es ls).entities.map Prod.fst = es.map Prod.fst := by
  simp [graph, enrichEntitiesWithLinks, List.map_map, Function.comp]

/-- Witness for C6: `orphanLs` references the absent entity `comments`,
and the built graph still has exactly the entity key `posts`. -/
theorem graph_total_keys_preserved_witness :
    (∃ p ∈ orphanLs, p.2.forward.onEntity ∉ orphanEs.map Prod.fst ∨
      p.2.reverse.onEntity ∉ orphanEs.map Prod.fst) ∧
    (graph "app" orphanEs orphanLs).entities.map Prod.fst =
      orphanEs.map Prod.fst :=
  ⟨by decide, graph_total_keys_preserved "app" orphanEs orphanLs (by decide)⟩

/-- C8: each modifier method (`optional`, `unique`, `indexed`) allocates a
new `DataAttrDef` — carrying the modified fields — and leaves its receiver
unchanged on the heap: the old reference still holds exactly the value it
held before the call, and the returned reference is a different one. -/
theorem dataAttrDef_copy_on_write (s : Store) (r : Nat) (a : DataAttrDef)
    (h : s.get? r = some a) :
    ((optionalCall s r).1.get? r = some a ∧
     (optionalCall s r).1.get? (optionalCall s r).2 = some a.optional ∧
     (optionalCall s r).2 ≠ r) ∧
    ((uniqueCall s r).1.get? r = some a ∧
     (uniqueCall s r).1.get? (uniqueCall s r).2 = some a.unique ∧
     (uniqueCall s r).2 ≠ r) ∧
    ((indexedCall s r).1.get? r = some a ∧
     (indexedCall s r).1.get? (indexedCall s r).2 = some a.indexed ∧
     (indexedCall s r).2 ≠ r) := by
  have hlt : r < s.length := (List.get?_eq_some.mp h).1
  have hold : ∀ v : DataAttrDef, (s ++ [v]).get? r = some a := fun v => by
    rw [List.get?_append hlt]; exact h
  have hnew : ∀ v : DataAttrDef, (s ++ [v]).get? s.length = some v := fun v =>
    List.get?_concat_length s v
  have hne : s.length ≠ r := fun hc => absurd (hc ▸ hlt) (lt_irrefl _)
  refine ⟨?_, ?_, ?_⟩ <;>
    simp only [optionalCall, uniqueCall, indexedCall, h, Store.alloc] <;>
    exact ⟨hold _, hnew _, hne⟩

/-- Witness for C8 at the store holding the single attribute `i.string()`. -/
theorem dataAttrDef_copy_on_write_witness :
    ([string].get? 0 = some string) ∧
    ((optionalCall [string] 0).1.get? 0 = some string ∧
     (optionalCall [string] 0).1.get? (optionalCall [string] 0).2 =
       some string.optional ∧
     (optionalCall [string] 0).2 ≠ 0) ∧
    ((uniqueCall [string] 0).1.get? 0 = some string ∧
     (uniqueCall [string] 0).1.get? (uniqueCall [string] 0).2 =
       some string.unique ∧
     (uniqueCall [string] 0).2 ≠ 0) ∧
    ((indexedCall [string] 0).1.get? 0 = some string ∧
     (indexedCall [string] 0).1.get? (indexedCall [string] 0).2 =
       some string.indexed ∧
     (indexedCall [string] 0).2 ≠ 0) := by
  refine ⟨rfl, ?_⟩
  exact dataAttrDef_copy_on_write [string] 0 string rfl

/-- C9: `graph` is deterministic — two calls with (structurally) identical
inputs produce structurally equal graphs, component for component. -/
theorem graph_deterministic (a a' : String) (es es' : List (String × EntityDef))
    (ls ls' : LinksDef) (h1 : a = a') (h2 : es = es') (h3 : ls = ls') :
    graph a es ls = graph a' es' ls' ∧
    (graph a es ls).appId = (graph a' es' ls').appId ∧
    (graph a es ls).entities = (graph a' es' ls').entities ∧
    (graph a es ls).links = (graph a' es' ls').links := by
  subst h1; subst h2; subst h3
  exact ⟨rfl, rfl, rfl, rfl⟩

/-- Witness for C9 at the spec's self-link input. -/
theorem graph_deterministic_witness :
    graph "app" selfEs selfLs = graph "app" selfEs selfLs ∧
    (graph "app" selfEs selfLs).appId = (graph "app" selfEs selfLs).appId ∧
    (graph "app" selfEs selfLs).entities = (graph "app" selfEs selfLs).entities ∧
    (graph "app" selfEs selfLs).links = (graph "app" selfEs selfLs).links :=
  graph_deterministic "app" "app" selfEs selfEs selfLs selfLs rfl rfl rfl

/-- C10: `optional()` resets the config to `{indexed: false, unique: false}`
regardless of the receiver's config (so a preceding `unique()` or
`indexed()` is discarded), while `unique()` and `indexed()` preserve the
value type, the required flag and the rest of the config, setting only
their own flag. -/
theorem dataAttrDef_modifier_fields (a : DataAttrDef) :
    (a.optional.config = ⟨false, false⟩ ∧
     a.optional.required = false ∧
     a.optional.valueType = a.valueType) ∧
    (a.unique.optional.config = ⟨false, false⟩ ∧
     a.indexed.optional.config = ⟨false, false⟩) ∧
    (a.unique.config.unique = true ∧
     a.unique.config.indexed = a.config.indexed ∧
     a.unique.required = a.required ∧
     a.unique.valueType = a.valueType) ∧
    (a.indexed.config.indexed = true ∧
     a.indexed.config.unique = a.config.unique ∧
     a.indexed.required = a.required ∧
     a.indexed.valueType = a.valueType) :=
  ⟨⟨rfl, rfl, rfl⟩, ⟨rfl, rfl⟩, ⟨rfl, rfl, rfl, rfl⟩, ⟨rfl, rfl, rfl, rfl⟩⟩

/-- Counterexample for C3: on `dupLs`, whose two link definitions both
write forward key `(posts, tags)` with different targets, the indexer
raises nothing and produces an index; its `(posts, tags)` entry is the
later definition's value `{entityName: tagsB, cardinality: one}`. -/
theorem duplicateLinkLabel_cex :
    ¬ (fwdKeys dupLs).Nodup ∧
    fwdAt (buildIndex dupLs) "posts" "tags" =
      some ⟨"tagsB", Cardinality.one⟩ ∧
    (graph "app" [("posts", entity [])] dupLs).entities.map Prod.fst =
      ["posts"] :=
  ⟨by decide, by decide, by decide⟩

/-- C3 as amended: with colliding `(entity, label)` keys the indexer does
not fail — the write of the last link definition in iteration order wins:
for any links mapping ending in `l`, the built index maps `l`'s forward
key to `l`'s forward value and `l`'s reverse key to `l`'s reverse value,
whatever was written before. -/
theorem buildIndex_lastWriteWins (ls : LinksDef) (n : String) (l : LinkDef) :
    fwdAt (buildIndex (ls ++ [(n, l)])) l.forward.onEntity l.forward.label =
      some (fwdVal l) ∧
    revAt (buildIndex (ls ++ [(n, l)])) l.reverse.onEntity l.reverse.label =
      some (revVal l) := by
  rw [buildIndex_concat]
  constructor
  · simp [fwdAt, indexStep, StrMap.set, fwdVal]
  · simp [revAt, indexStep, StrMap.set, revVal]

/-- C5: every entity of the built graph keeps its input `attrs` unchanged
and gets as `links` the spread-union of the index's forward and reverse
entries for its name (reverse entries winning, as `{...fwd, ...rev}`
does); when neither direction has an entry for the name, that union is the
empty mapping — the `links` field is still present. -/
theorem enrich_attrs_links_union (a : String)
    (es : List (String × EntityDef)) (ls : LinksDef) :
    (∀ name, lookupEnt (graph a es ls).entities name =
      (lookupEnt es name).map fun d =>
        { d with links :=
            StrMap.merge (((buildIndex ls).fwd name).getD StrMap.empty)
                         (((buildIndex ls).rev name).getD StrMap.empty) }) ∧
    (∀ name, (buildIndex ls).fwd name = none →
      (buildIndex ls).rev name = none →
      StrMap.merge (((buildIndex ls).fwd name).getD StrMap.empty)
                   (((buildIndex ls).rev name).getD StrMap.empty) =
        StrMap.empty) := by
  constructor
  · intro name
    exact lookupEnt_enrich es ls name
  · intro name hf hr
    rw [hf, hr]
    funext k
    simp [StrMap.merge, StrMap.empty, Option.orElse]

/-- Witness for C5: on `lonerEs`/`lonerLs` the entity `loner` appears in
no link, both index entries for it are absent, and its enriched `links`
map is the empty mapping. -/
theorem enrich_attrs_links_union_witness :
    ((buildIndex lonerLs).fwd "loner" = none) ∧
    ((buildIndex lonerLs).rev "loner" = none) ∧
    StrMap.merge (((buildIndex lonerLs).fwd "loner").getD StrMap.empty)
                 (((buildIndex lonerLs).rev "loner").getD StrMap.empty) =
      StrMap.empty ∧
    lookupEnt (graph "app" lonerEs lonerLs).entities "loner" =
      (lookupEnt lonerEs "loner").map fun d =>
        { d with links :=
            StrMap.merge (((buildIndex lonerLs).fwd "loner").getD StrMap.empty)
                         (((buildIndex lonerLs).rev "loner").getD StrMap.empty) } :=
  ⟨rfl, rfl,
   (enrich_attrs_links_union "app" lonerEs lonerLs).2 "loner" rfl rfl,
   (enrich_attrs_links_union "app" lonerEs lonerLs).1 "loner"⟩

/-- Counterexample for C1: `clashLs` is a single self-link whose forward
and reverse directions write the same `(entity, label)` key `(A, x)` — so
no two link definitions collide within one direction — yet the enriched
entity `A` does not carry the forward entry `{entityName: A, cardinality:
many}` under `x`: the reverse entry `{entityName: A, cardinality: one}`
shadows it, because the spread `{...fwd[name], ...rev[name]}` lets reverse
entries win. -/
theorem buildGraph_link_entries_cex :
    (fwdKeys clashLs).Nodup ∧ (revKeys clashLs).Nodup ∧
    ((lookupEnt (graph "app" clashEs clashLs).entities "A").map
       fun d => d.links "x") = some (some ⟨"A", Cardinality.one⟩) ∧
    ¬(((lookupEnt (graph "app" clashEs clashLs).entities "A").map
       fun d => d.links "x") = some (some ⟨"A", Cardinality.many⟩)) :=
  ⟨by decide, by decide, by decide, by decide⟩

/-- C1 as amended: for a links mapping in which no two link definitions
write the same `(entity, label)` key in the same direction, and — as the
counterexample forces — no reverse write targets the forward key of the
link definition under consideration, the built graph gives the forward
entity the links entry `label ↦ {entityName: reverse.on, cardinality:
forward.has}` and the reverse entity the entry `label ↦ {entityName:
forward.on, cardinality: reverse.has}`; the two entities may coincide
(self-links), in which case the one entity carries both entries. -/
theorem buildGraph_link_entries (a : String) (es : List (String × EntityDef))
    (ls : LinksDef) (n : String) (l : LinkDef) (dA dB : EntityDef)
    (hmem : (n, l) ∈ ls)
    (hf : (fwdKeys ls).Nodup) (hr : (revKeys ls).Nodup)
    (hcross : ∀ p ∈ ls, ¬(p.2.reverse.onEntity = l.forward.onEntity ∧
      p.2.reverse.label = l.forward.label))
    (hA : lookupEnt es l.forward.onEntity = some dA)
    (hB : lookupEnt es l.reverse.onEntity = some dB) :
    ((lookupEnt (graph a es ls).entities l.forward.onEntity).map
       fun d => d.links l.forward.label) = some (some (fwdVal l)) ∧
    ((lookupEnt (graph a es ls).entities l.reverse.onEntity).map
       fun d => d.links l.reverse.label) = some (some (revVal l)) := by
  have hl : l ∈ ls.map Prod.snd := List.mem_map_of_mem Prod.snd hmem
  have hf' : ((ls.map Prod.snd).map fun q =>
      (q.forward.onEntity, q.forward.label)).Nodup := hf
  have hr' : ((ls.map Prod.snd).map fun q =>
      (q.reverse.onEntity, q.reverse.label)).Nodup := hr
  have hfwdHits : fwdHits ls l.forward.onEntity l.forward.label = [l] := by
    refine eq_singleton_of_mem_of_length_le_one ?_ ?_
    · exact List.mem_filter.mpr ⟨hl, by simp⟩
    · exact length_filter_le_one
        (fun q => (q.forward.onEntity, q.forward.label)) _ _ hf'
        (fun q1 q2 h1 h2 => by
          simp only [Bool.and_eq_true, beq_iff_eq] at h1 h2
          simp [h1.1, h1.2, h2.1, h2.2])
  have hrevHits : revHits ls l.reverse.onEntity l.reverse.label = [l] := by
    refine eq_singleton_of_mem_of_length_le_one ?_ ?_
    · exact List.mem_filter.mpr ⟨hl, by simp⟩
    · exact length_filter_le_one
        (fun q => (q.reverse.onEntity, q.reverse.label)) _ _ hr'
        (fun q1 q2 h1 h2 => by
          simp only [Bool.and_eq_true, beq_iff_eq] at h1 h2
          simp [h1.1, h1.2, h2.1, h2.2])
  have hrevNone : revAt (buildIndex ls) l.forward.onEntity l.forward.label =
      none := by
    rw [revAt_eq]
    have : revHits ls l.forward.onEntity l.forward.label = [] := by
      rw [revHits, List.filter_eq_nil]
      intro q hq
      obtain ⟨p, hp, rfl⟩ := List.mem_map.mp hq
      have := hcross p hp
      simp only [Bool.and_eq_true, beq_iff_eq]
      exact fun hc => this hc
    rw [this]
    rfl
  have hfwdSome : fwdAt (buildIndex ls) l.forward.onEntity l.forward.label =
      some (fwdVal l) := by
    rw [fwdAt_eq, hfwdHits]
    rfl
  have hrevSome : revAt (buildIndex ls) l.reverse.onEntity l.reverse.label =
      some (revVal l) := by
    rw [revAt_eq, hrevHits]
    rfl
  constructor
  · show ((lookupEnt (enrichEntitiesWithLinks es ls) l.forward.onEntity).map
      fun d => d.links l.forward.label) = some (some (fwdVal l))
    rw [lookupEnt_enrich, hA]
    show some (StrMap.merge
      (((buildIndex ls).fwd l.forward.onEntity).getD StrMap.empty)
      (((buildIndex ls).rev l.forward.onEntity).getD StrMap.empty)
      l.forward.label) = some (some (fwdVal l))
    have : StrMap.merge
        (((buildIndex ls).fwd l.forward.onEntity).getD StrMap.empty)
        (((buildIndex ls).rev l.forward.onEntity).getD StrMap.empty)
        l.forward.label =
        (revAt (buildIndex ls) l.forward.onEntity l.forward.label).orElse
          (fun _ => fwdAt (buildIndex ls) l.forward.onEntity l.forward.label) :=
      rfl
    rw [this, hrevNone, hfwdSome]
    rfl
  · show ((lookupEnt (enrichEntitiesWithLinks es ls) l.reverse.onEntity).map
      fun d => d.links l.reverse.label) = some (some (revVal l))
    rw [lookupEnt_enrich, hB]
    show some (StrMap.merge
      (((buildIndex ls).fwd l.reverse.onEntity).getD StrMap.empty)
      (((buildIndex ls).rev l.reverse.onEntity).getD StrMap.empty)
      l.reverse.label) = some (some (revVal l))
    have : StrMap.merge
        (((buildIndex ls).fwd l.reverse.onEntity).getD StrMap.empty)
        (((buildIndex ls).rev l.reverse.onEntity).getD StrMap.empty)
        l.reverse.label =
        (revAt (buildIndex ls) l.reverse.onEntity l.reverse.label).orElse
          (fun _ => fwdAt (buildIndex ls) l.reverse.onEntity l.reverse.label) :=
      rfl
    rw [this, hrevSome]
    rfl

/-- Witness for C1 at the spec's self-link example: `posts` carries both
the `replies` (forward) and `parent` (reverse) entries. -/
theorem buildGraph_link_entries_witness :
    ((lookupEnt (graph "app" selfEs selfLs).entities "posts").map
       fun d => d.links "replies") =
      some (some ⟨"posts", Cardinality.many⟩) ∧
    ((lookupEnt (graph "app" selfEs selfLs).entities "posts").map
       fun d => d.links "parent") =
      some (some ⟨"posts", Cardinality.one⟩) :=
  buildGraph_link_entries "app" selfEs selfLs "postsPosts"
    ⟨⟨"posts", "replies", .many⟩, ⟨"posts", "parent", .one⟩⟩
    (entity [("title", string)]) (entity [("title", string)])
    (by decide) (by decide) (by decide) (by decide) rfl rfl

/-- C4: for a links mapping with no duplicate `(entity, label)` key within
either direction, the built index is independent of iteration order —
every permutation of the mapping yields identical `fwd` and `rev`
mappings, and hence identical enriched entities for every entity set. -/
theorem buildIndex_order_independent (ls ls' : LinksDef)
    (hperm : List.Perm ls ls')
    (hf : (fwdKeys ls).Nodup) (hr : (revKeys ls).Nodup) :
    buildIndex ls = buildIndex ls' ∧
    ∀ es, enrichEntitiesWithLinks es ls = enrichEntitiesWithLinks es ls' := by
  have hpermSnd : (ls.map Prod.snd).Perm (ls'.map Prod.snd) :=
    hperm.map Prod.snd
  have hf' : ((ls.map Prod.snd).map fun q =>
      (q.forward.onEntity, q.forward.label)).Nodup := hf
  have hr' : ((ls.map Prod.snd).map fun q =>
      (q.reverse.onEntity, q.reverse.label)).Nodup := hr
  have hfwdHits : ∀ e lab, fwdHits ls e lab = fwdHits ls' e lab := by
    intro e lab
    exact filter_eq_of_perm _ hpermSnd
      (length_filter_le_one (fun q => (q.forward.onEntity, q.forward.label))
        _ _ hf'
        (fun q1 q2 h1 h2 => by
          simp only [Bool.and_eq_true, beq_iff_eq] at h1 h2
          simp [h1.1, h1.2, h2.1, h2.2]))
  have hrevHits : ∀ e lab, revHits ls e lab = revHits ls' e lab := by
    intro e lab
    exact filter_eq_of_perm _ hpermSnd
      (length_filter_le_one (fun q => (q.reverse.onEntity, q.reverse.label))
        _ _ hr'
        (fun q1 q2 h1 h2 => by
          simp only [Bool.and_eq_true, beq_iff_eq] at h1 h2
          simp [h1.1, h1.2, h2.1, h2.2]))
  have hfwdAt : ∀ e lab, fwdAt (buildIndex ls) e lab =
      fwdAt (buildIndex ls') e lab := by
    intro e lab
    rw [fwdAt_eq, fwdAt_eq, hfwdHits]
  have hrevAt : ∀ e lab, revAt (buildIndex ls) e lab =
      revAt (buildIndex ls') e lab := by
    intro e lab
    rw [revAt_eq, revAt_eq, hrevHits]
  have hfwdNone : ∀ e, (buildIndex ls).fwd e = none ↔
      (buildIndex ls').fwd e = none := by
    intro e
    rw [buildIndex_fwd_none, buildIndex_fwd_none]
    exact ⟨fun h p hp => h p (hperm.mem_iff.mpr hp),
           fun h p hp => h p (hperm.mem_iff.mp hp)⟩
  have hrevNone : ∀ e, (buildIndex ls).rev e = none ↔
      (buildIndex ls').rev e = none := by
    intro e
    rw [buildIndex_rev_none, buildIndex_rev_none]
    exact ⟨fun h p hp => h p (hperm.mem_iff.mpr hp),
           fun h p hp => h p (hperm.mem_iff.mp hp)⟩
  have hfw : (buildIndex ls).fwd = (buildIndex ls').fwd := by
    funext e
    cases h1 : (buildIndex ls).fwd e with
    | none =>
      exact ((hfwdNone e).mp h1).symm
    | some m =>
      cases h2 : (buildIndex ls').fwd e with
      | none =>
        exact absurd ((hfwdNone e).mpr h2) (by simp [h1])
      | some m2 =>
        refine congrArg some (funext fun lab => ?_)
        have e1 : fwdAt (buildIndex ls) e lab = m lab := by
          simp [fwdAt, h1]
        have e2 : fwdAt (buildIndex ls') e lab = m2 lab := by
          simp [fwdAt, h2]
        rw [← e1, ← e2, hfwdAt]
  have hrv : (buildIndex ls).rev = (buildIndex ls').rev := by
    funext e
    cases h1 : (buildIndex ls).rev e with
    | none =>
      exact ((hrevNone e).mp h1).symm
    | some m =>
      cases h2 : (buildIndex ls').rev e with
      | none =>
        exact absurd ((hrevNone e).mpr h2) (by simp [h1])
      | some m2 =>
        refine congrArg some (funext fun lab => ?_)
        have e1 : revAt (buildIndex ls) e lab = m lab := by
          simp [revAt, h1]
        have e2 : revAt (buildIndex ls') e lab = m2 lab := by
          simp [revAt, h2]
        rw [← e1, ← e2, hrevAt]
  have hmain : buildIndex ls = buildIndex ls' := by
    calc buildIndex ls = ⟨(buildIndex ls).fwd, (buildIndex ls).rev⟩ := rfl
      _ = ⟨(buildIndex ls').fwd, (buildIndex ls').rev⟩ := by rw [hfw, hrv]
      _ = buildIndex ls' := rfl
  exact ⟨hmain, fun es => by simp only [enrichEntitiesWithLinks, hmain]⟩

/-- Witness for C4: transposing the two entries of `permLs` leaves the
built index unchanged. -/
theorem buildIndex_order_independent_witness :
    (fwdKeys permLs).Nodup ∧ (revKeys permLs).Nodup ∧
    buildIndex permLs = buildIndex permLs2 :=
  ⟨by decide, by decide,
   (buildIndex_order_independent permLs permLs2
     (List.Perm.swap _ _ _) (by decide) (by decide)).1⟩

lemma linkFields_mem (ents : List (String × EntityDef)) (d : EntityDef)
    (cs : List (String × Query)) (k : String) (sub : Query) (la : LinkAttr)
    (td : EntityDef) (hmem : (k, sub) ∈ cs) (hl : d.links k = some la)
    (he : lookupEnt ents la.entityName = some td) :
    (k, match la.cardinality with
        | .one => Field.single (entityResult ents td sub)
        | .many => Field.many (entityResult ents td sub)) ∈
      linkFields ents d cs := by
  induction cs with
  | nil => cases hmem
  | cons p rest ih =>
    rcases List.mem_cons.mp hmem with h | h
    · subst h
      simp only [linkFields, hl, he]
      exact List.mem_cons_self _ _
    · cases p with
      | mk k2 sub2 =>
        simp only [linkFields]
        exact List.mem_cons_of_mem _ (ih h)

lemma queryResult_mem (ents : List (String × EntityDef))
    (cs : List (String × Query)) (E : String) (sub : Query) (d2 : EntityDef)
    (hmem : (E, sub) ∈ cs) (hE : lookupEnt ents E = some d2) :
    (E, if hasFirst sub then
          Field.single (omitFields (entityResult ents d2 sub))
        else Field.many (entityResult ents d2 sub)) ∈
      queryResult ents (.node cs) := by
  induction cs with
  | nil => cases hmem
  | cons p rest ih =>
    rcases List.mem_cons.mp hmem with h | h
    · subst h
      simp only [queryResult, List.map_cons, hE]
      exact List.mem_cons_self _ _
    · simp only [queryResult, List.map_cons]
      exact List.mem_cons_of_mem _ (by simpa [queryResult] using ih h)

/-- C2: the shape the `InstaQL...Result` types compute — every attribute
of the entity is present in the result carrying its value type and its
required flag (so it admits `undefined` exactly when the attribute was
marked optional); every nested query key matching a link label yields a
single nested shape of the target entity when the link's cardinality is
`one` and a collection of that shape when it is `many`; and a `$first`
control key at the top level degrades the collection at that node into a
single nested shape with `$first` stripped from the produced shape. -/
theorem instaQLQueryResult_shape (ents : List (String × EntityDef))
    (d : EntityDef) (q : Query) :
    (∀ an ad, (an, ad) ∈ d.attrs →
      (an, Field.attr ad.valueType ad.required) ∈ entityResult ents d q) ∧
    (∀ cs k sub t td, q = .node cs → (k, sub) ∈ cs →
      d.links k = some ⟨t, Cardinality.one⟩ → lookupEnt ents t = some td →
      (k, Field.single (entityResult ents td sub)) ∈ entityResult ents d q) ∧
    (∀ cs k sub t td, q = .node cs → (k, sub) ∈ cs →
      d.links k = some ⟨t, Cardinality.many⟩ → lookupEnt ents t = some td →
      (k, Field.many (entityResult ents td sub)) ∈ entityResult ents d q) ∧
    (∀ cs E sub d2, q = .node cs → (E, sub) ∈ cs →
      lookupEnt ents E = some d2 →
      (E, if hasFirst sub then
            Field.single (omitFields (entityResult ents d2 sub))
          else Field.many (entityResult ents d2 sub)) ∈
        queryResult ents q) := by
  refine ⟨?_, ?_, ?_, ?_⟩
  · intro an ad ha
    cases q with
    | node cs =>
      simp only [entityResult]
      exact List.mem_append_left _ (List.mem_map.mpr ⟨(an, ad), ha, rfl⟩)
  · intro cs k sub t td hq hmem hl he
    subst hq
    simp only [entityResult]
    exact List.mem_append_right _
      (linkFields_mem ents d cs k sub ⟨t, .one⟩ td hmem hl he)
  · intro cs k sub t td hq hmem hl he
    subst hq
    simp only [entityResult]
    exact List.mem_append_right _
      (linkFields_mem ents d cs k sub ⟨t, .many⟩ td hmem hl he)
  · intro cs E sub d2 hq hmem hE
    subst hq
    exact queryResult_mem ents cs E sub d2 hmem hE

/-- Witness for C2 at the spec's example (`authors`/`posts` with a
`many`/`one` link): `{posts: {author: {}}}` resolves to a collection of
posts, each carrying the `title` attribute and a single nested `author`
shape, and `{posts: {$first: {}, author: {}}}` degrades the collection to
a single shape with `$first` stripped. -/
theorem instaQLQueryResult_shape_witness :
    (postsDef.links "author" = some ⟨"authors", Cardinality.one⟩) ∧
    ("posts",
      Field.many (entityResult shapeEnts postsDef
        (.node [("author", .node [])]))) ∈ queryResult shapeEnts shapeQuery ∧
    ("author",
      Field.single (entityResult shapeEnts authorsDef (.node []))) ∈
      entityResult shapeEnts postsDef (.node [("author", .node [])]) ∧
    ("title", Field.attr ValueType.string true) ∈
      entityResult shapeEnts postsDef (.node [("author", .node [])]) ∧
    ("posts",
      Field.single (omitFields (entityResult shapeEnts postsDef
        (.node [("$first", .node []), ("author", .node [])])))) ∈
      queryResult shapeEnts firstQuery :=
  ⟨rfl,
   (instaQLQueryResult_shape shapeEnts postsDef shapeQuery).2.2.2
     [("posts", .node [("author", .node [])])] "posts"
     (.node [("author", .node [])]) postsDef rfl
     (List.mem_singleton.mpr rfl) rfl,
   (instaQLQueryResult_shape shapeEnts postsDef
       (.node [("author", .node [])])).2.1
     [("author", .node [])] "author" (.node []) "authors" authorsDef rfl
     (List.mem_singleton.mpr rfl) rfl rfl,
   (instaQLQueryResult_shape shapeEnts postsDef
       (.node [("author", .node [])])).1
     "title" string (List.mem_singleton.mpr rfl),
   (instaQLQueryResult_shape shapeEnts postsDef firstQuery).2.2.2
     [("posts", .node [("$first", .node []), ("author", .node [])])] "posts"
     (.node [("$first", .node []), ("author", .node [])]) postsDef rfl
     (List.mem_singleton.mpr rfl) rfl⟩

/-- C7 (resolver modelled from the spec): a query whose nested object
under entity `E` leads with a key `k` that is not a link label of `E`
resolves to an `UnknownLink` error naming the entity, the label, and the
nesting path at which the mismatch occurred — both at an arbitrary
nesting path and for the top-level query `{E: {k: ...}}`. -/
theorem resolveQuery_unknownLink (ents : List (String × EntityDef))
    (E k : String) (d : EntityDef) (sub : Query)
    (rest : List (String × Query)) (path : List String)
    (hE : lookupEnt ents E = some d) (hk : d.links k = none)
    (hkf : (k == "$first") = false) :
    resolveEntity ents E d path (.node ((k, sub) :: rest)) =
      .error (.unknownLink E k (path ++ [k])) ∧
    resolveQuery ents (.node [(E, .node ((k, sub) :: rest))]) =
      .error (.unknownLink E k [E, k]) := by
  have h1 : ∀ (p : List String) (rest2 : List (String × Query)),
      resolveEntity ents E d p (.node ((k, sub) :: rest2)) =
        .error (.unknownLink E k (p ++ [k])) := by
    intro p rest2
    simp only [resolveEntity, resolveLinks, hk]
  constructor
  · exact h1 path rest
  · have hk' : ¬ k = "$first" := by simpa using hkf
    have hstrip : stripFirst (.node ((k, sub) :: rest)) =
        .node ((k, sub) :: rest.filter fun p => p.1 != "$first") := by
      simp [stripFirst, List.filter_cons, hk']
    simp only [resolveQuery, resolveTop, hE, hstrip, h1]
    rfl

/-- Witness for C7: `{posts: {nonexistentLink: {}}}` against the spec's
example entities yields `UnknownLink` naming `posts`, `nonexistentLink`,
and the path `posts.nonexistentLink`. -/
theorem resolveQuery_unknownLink_witness :
    (postsDef.links "nonexistentLink" = none) ∧
    resolveQuery shapeEnts unknownQuery =
      .error (.unknownLink "posts" "nonexistentLink"
        ["posts", "nonexistentLink"]) :=
  ⟨rfl,
   (resolveQuery_unknownLink shapeEnts "posts" "nonexistentLink" postsDef
     (.node []) [] [] rfl rfl rfl).2⟩

end Instant
